import Mathlib

/-
Verification of the SAGE node-graph runtime and its tiered persistence layer
(`sage/core/base.py`, `sage/core/persistence.py`) against its specification.

The Python code is shallowly embedded:
- the JSON file store becomes, per tier, an association list from sanitized
  file stem to file content (a parsed record or a corrupt file);
- `SharedStore` becomes a record of an association-list store and per-key
  subscriber lists; callbacks are opaque identifiers carrying a predicate
  saying on which (key, value) invocations they raise, and execution is
  modelled as an event trace plus an "exception escaped" flag;
- `Flow.run` / `Flow.run_async` become fuel-indexed recursions over a graph
  of node definitions, where a node's `run` is an opaque state transformer
  returning the new shared state and the declared action.
-/

namespace Sage

/-- Association-list lookup, modelling Python dict access by key. -/
def lookupA {α : Type} : List (String × α) → String → Option α
  | [], _ => none
  | (k', v) :: rest, k => if k' = k then some v else lookupA rest k

/-- Association-list overwrite, modelling Python dict assignment `d[k] = v`
(and writing a file: the entry is replaced in place, or appended if new). -/
def setA {α : Type} : List (String × α) → String → α → List (String × α)
  | [], k, v => [(k, v)]
  | (k', v') :: rest, k, v =>
    if k' = k then (k, v) :: rest else (k', v') :: setA rest k v

theorem lookupA_setA_self {α : Type} (l : List (String × α)) (k : String) (v : α) :
    lookupA (setA l k v) k = some v := by
  induction l with
  | nil => simp [setA, lookupA]
  | cons hd tl ih =>
    obtain ⟨k', v'⟩ := hd
    by_cases h : k' = k
    · simp [setA, h, lookupA]
    · simp [setA, h, lookupA, ih]

theorem lookupA_setA_ne {α : Type} (l : List (String × α)) (k k' : String) (v : α)
    (h : k ≠ k') : lookupA (setA l k v) k' = lookupA l k' := by
  induction l with
  | nil => simp [setA, lookupA, h]
  | cons hd tl ih =>
    obtain ⟨k0, v0⟩ := hd
    by_cases h0 : k0 = k
    · subst h0
      simp [setA, lookupA, h]
    · simp [setA, h0, lookupA, ih]

/-! ## Persistence layer (`sage/core/persistence.py`) -/

/-- The four resource tiers (`AgentFork` enum). -/
inductive AgentFork : Type where
  | alpha
  | beta
  | gamma
  | delta
  deriving DecidableEq

/-- The `.value` attribute of the `AgentFork` enum. -/
def AgentFork.value : AgentFork → String
  | .alpha => "alpha"
  | .beta => "beta"
  | .gamma => "gamma"
  | .delta => "delta"

/-- Content of one storage file: either a well-formed record as written by
`save` (the JSON object `\x7bkey, fork, timestamp, data\x7d`), or an unreadable /
malformed file (anything that makes `json.load` or `.get("data")` fail). -/
inductive FileContent (V : Type) : Type where
  | record (key fork timestamp : String) (data : V)
  | corrupt
  deriving DecidableEq

/-- The filesystem state of a `JSONPersistence` instance: for each tier
directory, the association list from file stem (the sanitized key) to file
content. The model assumes tier directories contain only the flat `.json`
files written by `save`, and no subdirectories — exactly what the code
itself ever creates. -/
def Storage (V : Type) : Type :=
  AgentFork → List (String × FileContent V)

/-- A filesystem with no records in any tier. -/
def emptyStorage (V : Type) : Storage V := fun _ => []

/-- Key sanitization in `JSONPersistence._get_path`:
`key.replace("/", "_").replace("\\", "_")`. Both replacements are single
character to single character (and `_` is not itself replaced again), so
the composition is a charwise map over the string. -/
def sanitize (key : String) : String :=
  String.mk (key.data.map (fun c => if c = '/' ∨ c = '\\' then '_' else c))

/-- The reverse step in `list_keys`: `name.replace("_", "/")`. -/
def desanitize (stem : String) : String :=
  String.mk (stem.data.map (fun c => if c = '_' then '/' else c))

/-- `JSONPersistence.save`: writes the wrapped record
`\x7bkey, fork.value, timestamp, data\x7d` to the file `sanitize key ++ ".json"`
in the tier's directory, overwriting any previous file. The timestamp is an
external input (the wall clock). -/
def save {V : Type} (st : Storage V) (key : String) (data : V)
    (fork : AgentFork) (timestamp : String) : Storage V :=
  fun f =>
    if f = fork then
      setA (st f) (sanitize key) (.record key fork.value timestamp data)
    else st f

/-- `JSONPersistence.load`: returns the `data` field of the record when the
file exists and parses; a missing file or a corrupt one both give `none`
(the `except` clause returns `None`); the function is total, so no
exception ever reaches the caller. -/
def load {V : Type} (st : Storage V) (key : String) (fork : AgentFork) : Option V :=
  match lookupA (st fork) (sanitize key) with
  | some (.record _ _ _ d) => some d
  | some .corrupt => none
  | none => none

/-- `JSONPersistence.exists`: a pure file-existence check, independent of
readability. -/
def existsKey {V : Type} (st : Storage V) (key : String) (fork : AgentFork) : Bool :=
  (lookupA (st fork) (sanitize key)).isSome

/-- Glob / fnmatch matching on character lists, as used by `glob.glob`
within one path component: `*` matches any (possibly empty) run of
characters — equivalently, the rest of the pattern matches some suffix of
the name — `?` matches exactly one character, anything else is literal.
(Bracket character classes are not modelled; no pattern in this
development uses them.) -/
def fnmatchL : List Char → List Char → Bool
  | [], cs => cs.isEmpty
  | '*' :: ps, cs => cs.tails.any (fun t => fnmatchL ps t)
  | '?' :: ps, cs =>
    match cs with
    | [] => false
    | _ :: cs => fnmatchL ps cs
  | p :: ps, cs =>
    match cs with
    | [] => false
    | c :: cs => (p = c) && fnmatchL ps cs

/-- Glob matching on strings. -/
def globMatch (pattern name : String) : Bool :=
  fnmatchL pattern.data name.data

/-- The hidden-name test of the `glob` module: a name is hidden when its
first character is a dot. -/
def hiddenName (s : String) : Bool :=
  match s.data with
  | [] => false
  | c :: _ => c = '.'

/-- `JSONPersistence.list_keys`: globs for `pattern ++ ".json"` inside the
tier directory, then maps each matching file's stem through
`name.replace("_", "/")` and sorts. Two properties of `glob.glob` are
reflected here: a pattern containing a path separator looks inside a
subdirectory of the tier directory — and since `save` only ever creates
flat files, no such subdirectory exists and the result is empty (patterns
with `.` or `..` components are outside the model); and a file whose name
starts with a dot is hidden unless the glob component itself starts with a
dot. -/
def list_keys {V : Type} (st : Storage V) (pattern : String) (fork : AgentFork) :
    List String :=
  if pattern.data.contains '/' then []
  else
    let fpat := pattern ++ ".json"
    let stems := (st fork).map Prod.fst
    let matched := stems.filter (fun s =>
      (hiddenName fpat || !hiddenName (s ++ ".json")) &&
        globMatch fpat (s ++ ".json"))
    List.insertionSort (fun a b => a ≤ b) (matched.map desanitize)

/-! ### Persistence lemmas and claim theorems -/

theorem save_apply_same {V : Type} (st : Storage V) (key : String) (data : V)
    (fork : AgentFork) (ts : String) :
    (save st key data fork ts) fork
      = setA (st fork) (sanitize key) (.record key fork.value ts data) := by
  simp [save]

theorem save_apply_other {V : Type} (st : Storage V) (key : String) (data : V)
    (fork : AgentFork) (ts : String) (fork' : AgentFork) (h : fork' ≠ fork) :
    (save st key data fork ts) fork' = st fork' := by
  simp [save, h]

theorem load_of_lookup {V : Type} (st : Storage V) (key : String) (fork : AgentFork) :
    load st key fork
      = match lookupA (st fork) (sanitize key) with
        | some (.record _ _ _ d) => some d
        | some .corrupt => none
        | none => none := rfl

/-- Loading under any key with the same sanitized form as the key just
saved yields the saved data. -/
theorem load_save_same_sanitize {V : Type} (st : Storage V) (k k' : String) (v : V)
    (fork : AgentFork) (ts : String) (h : sanitize k = sanitize k') :
    load (save st k v fork ts) k' fork = some v := by
  have hl : lookupA ((save st k v fork ts) fork) (sanitize k')
      = some (FileContent.record k fork.value ts v) := by
    rw [save_apply_same, ← h, lookupA_setA_self]
  simp [load, hl]

/-- C2: for every tier, key and value, `load` immediately after `save` of
that key in that tier returns exactly the saved data (the embedding takes
the data field abstract, i.e. any JSON-representable value). -/
theorem save_load_roundtrip {V : Type} (st : Storage V) (key : String) (data : V)
    (fork : AgentFork) (ts : String) :
    load (save st key data fork ts) key fork = some data :=
  load_save_same_sanitize st key key data fork ts rfl

/-- C3: `_get_path` maps `"a/b"`, `"a_b"` and `"a\\b"` to the same file, so
after saving under `"a/b"` the record is also visible under the other two
spellings, and a later save under one of those spellings overwrites the
record reached through any of them. -/
theorem aliased_keys_share_record {V : Type} (st : Storage V) (v v' : V)
    (fork : AgentFork) (ts ts' : String) :
    load (save st "a/b" v fork ts) "a_b" fork = some v ∧
    load (save st "a/b" v fork ts) "a\\b" fork = some v ∧
    load (save (save st "a/b" v fork ts) "a_b" v' fork ts') "a/b" fork = some v' ∧
    load (save (save st "a/b" v fork ts) "a\\b" v' fork ts') "a_b" fork = some v' := by
  refine ⟨?_, ?_, ?_, ?_⟩ <;>
    exact load_save_same_sanitize _ _ _ _ _ _ (by decide)

/-- C7: tiers are isolated namespaces. Saving the same key to two distinct
tiers leaves each tier's own record intact, and a save in one tier changes
nothing observable — `load`, `exists`, `list_keys`, or the raw directory —
in any other tier. -/
theorem tier_isolation {V : Type} (st : Storage V) (k k2 p : String) (v1 v2 : V)
    (t1 t2 : AgentFork) (ts1 ts2 : String) (h : t1 ≠ t2) :
    load (save (save st k v1 t1 ts1) k v2 t2 ts2) k t1 = some v1 ∧
    load (save (save st k v1 t1 ts1) k v2 t2 ts2) k t2 = some v2 ∧
    (save st k v1 t1 ts1) t2 = st t2 ∧
    load (save st k v1 t1 ts1) k2 t2 = load st k2 t2 ∧
    existsKey (save st k v1 t1 ts1) k2 t2 = existsKey st k2 t2 ∧
    list_keys (save st k v1 t1 ts1) p t2 = list_keys st p t2 := by
  have hframe : ∀ (s : Storage V) (key : String) (v : V) (ta tb : AgentFork)
      (ts : String), tb ≠ ta → (save s key v ta ts) tb = s tb := by
    intro s key v ta tb ts hne
    exact save_apply_other s key v ta ts tb hne
  refine ⟨?_, ?_, ?_, ?_, ?_, ?_⟩
  · rw [load_of_lookup, hframe _ _ _ _ _ _ (Ne.symm h).symm]
    · have := save_load_roundtrip st k v1 t1 ts1
      rw [load_of_lookup] at this
      exact this
  · exact save_load_roundtrip _ k v2 t2 ts2
  · exact hframe _ _ _ _ _ _ (Ne.symm h)
  · rw [load_of_lookup, load_of_lookup, hframe _ _ _ _ _ _ (Ne.symm h)]
  · unfold existsKey
    rw [hframe _ _ _ _ _ _ (Ne.symm h)]
  · unfold list_keys
    rw [hframe _ _ _ _ _ _ (Ne.symm h)]

/-- Witness for C7 at concrete tiers alpha and beta. -/
theorem tier_isolation_witness :
    load (save (save (emptyStorage Nat) "k" 1 .alpha "t1") "k" 2 .beta "t2") "k" .alpha
        = some 1 ∧
    load (save (save (emptyStorage Nat) "k" 1 .alpha "t1") "k" 2 .beta "t2") "k" .beta
        = some 2 ∧
    (save (emptyStorage Nat) "k" 1 .alpha "t1") .beta = emptyStorage Nat .beta ∧
    load (save (emptyStorage Nat) "k" 1 .alpha "t1") "k2" .beta
        = load (emptyStorage Nat) "k2" .beta ∧
    existsKey (save (emptyStorage Nat) "k" 1 .alpha "t1") "k2" .beta
        = existsKey (emptyStorage Nat) "k2" .beta ∧
    list_keys (save (emptyStorage Nat) "k" 1 .alpha "t1") "*" .beta
        = list_keys (emptyStorage Nat) "*" .beta :=
  tier_isolation (emptyStorage Nat) "k" "k2" "*" 1 2 .alpha .beta "t1" "t2" (by decide)

/-- C8: a missing record makes `load` return none and `exists` false, and a
corrupt (unparseable) record also makes `load` return none; `load` is a
total function, so no exception reaches its caller. -/
theorem load_missing_or_corrupt {V : Type} (st : Storage V) (key : String)
    (fork : AgentFork) :
    (lookupA (st fork) (sanitize key) = none →
      load st key fork = none ∧ existsKey st key fork = false) ∧
    (lookupA (st fork) (sanitize key) = some .corrupt → load st key fork = none) := by
  constructor
  · intro h
    constructor
    · rw [load_of_lookup, h]
    · unfold existsKey
      rw [h]
      rfl
  · intro h
    rw [load_of_lookup, h]

/-- Witness for C8: an empty tier for the missing case, and a tier holding
one corrupt file for the corrupt case. -/
theorem load_missing_or_corrupt_witness :
    (load (emptyStorage Nat) "missing" .alpha = none ∧
      existsKey (emptyStorage Nat) "missing" .alpha = false) ∧
    load (fun _ => [("c", FileContent.corrupt)] : Storage Nat) "c" .alpha = none :=
  ⟨(load_missing_or_corrupt (emptyStorage Nat) "missing" .alpha).1 (by decide),
   (load_missing_or_corrupt (fun _ => [("c", FileContent.corrupt)]) "c" .alpha).2
     (by decide)⟩

/-- C1 (code bug): after `save("profiles/alice", ..., alpha)` the key is
stored as the flat file `profiles_alice.json`, but
`list_keys("profiles/*", alpha)` globs for `*.json` inside a `profiles`
subdirectory of the alpha tier directory, which does not exist — so it
returns the empty list instead of including `"profiles/alice"` as the spec
scenario (and the repository's own test `test_list_keys`) requires. The
record itself is present: it round-trips through `load` and is listed by
the patterns `"profiles_*"` and `"*"`. -/
theorem list_keys_slash_pattern_bug :
    list_keys (save (emptyStorage (List (String × String))) "profiles/alice"
        [("style", "visual")] .alpha "ts") "profiles/*" .alpha = [] ∧
    list_keys (save (emptyStorage (List (String × String))) "profiles/alice"
        [("style", "visual")] .alpha "ts") "profiles_*" .alpha = ["profiles/alice"] ∧
    list_keys (save (emptyStorage (List (String × String))) "profiles/alice"
        [("style", "visual")] .alpha "ts") "*" .alpha = ["profiles/alice"] ∧
    load (save (emptyStorage (List (String × String))) "profiles/alice"
        [("style", "visual")] .alpha "ts") "profiles/alice" .alpha
      = some [("style", "visual")] := by
  refine ⟨by decide, by decide, by decide, by decide⟩

/-! ## SharedStore (`sage/core/base.py`)

Callbacks are Python closures; the embedding represents one by an opaque
identifier together with a predicate telling on which `(key, value)`
invocations it raises an exception. Running `set`/`update` produces, next
to the new store state, the ordered trace of callback invocations (each
recorded with the exact arguments passed) and a flag saying whether an
exception escaped to the caller. -/

/-- A subscriber callback: an opaque identity plus the (key, value) pairs
on which invoking it raises. -/
structure Callback (V : Type) where
  cid : Nat
  fails : String → V → Bool

/-- One callback invocation, recorded with the arguments it was passed. -/
structure Event (V : Type) where
  cid : Nat
  key : String
  value : V
  deriving DecidableEq

/-- `SharedStore._notify_listeners`: invoke the given callbacks in order
with `(key, value)`; stop if one raises. Returns the invocations performed
(the raising one included) and whether an exception escaped. -/
def notify {V : Type} : List (Callback V) → String → V → List (Event V) × Bool
  | [], _, _ => ([], false)
  | c :: rest, k, v =>
    if c.fails k v then ([⟨c.cid, k, v⟩], true)
    else
      let r := notify rest k v
      (⟨c.cid, k, v⟩ :: r.1, r.2)

/-- The state of a `SharedStore`: the `_store` dict and the `_listeners`
dict mapping a key to its subscribers in registration order. -/
structure SharedStore (V : Type) where
  store : List (String × V)
  listeners : List (String × List (Callback V))

/-- The subscribers registered for a key (empty when the key was never
subscribed to, matching the `if key in self._listeners` guard). -/
def listenersFor {V : Type} (s : SharedStore V) (k : String) : List (Callback V) :=
  (lookupA s.listeners k).getD []

/-- `SharedStore.set`: store the value, then notify the key's listeners. -/
def SharedStore.set {V : Type} (s : SharedStore V) (k : String) (v : V) :
    SharedStore V × List (Event V) × Bool :=
  let s' : SharedStore V := { s with store := setA s.store k v }
  let r := notify (listenersFor s' k) k v
  (s', r.1, r.2)

/-- `SharedStore.subscribe`: append the callback to the key's list. -/
def SharedStore.subscribe {V : Type} (s : SharedStore V) (k : String)
    (c : Callback V) : SharedStore V :=
  { s with listeners := setA s.listeners k ((lookupA s.listeners k).getD [] ++ [c]) }

/-- `SharedStore.update`: apply `set` to each entry in order; an exception
raised by a subscriber aborts the iteration and propagates. -/
def SharedStore.update {V : Type} (s : SharedStore V) :
    List (String × V) → SharedStore V × List (Event V) × Bool
  | [] => (s, [], false)
  | (k, v) :: rest =>
    let r := s.set k v
    if r.2.2 then (r.1, r.2.1, true)
    else
      let r2 := r.1.update rest
      (r2.1, r.2.1 ++ r2.2.1, r2.2.2)

theorem notify_ok {V : Type} (cbs : List (Callback V)) (k : String) (v : V)
    (h : ∀ c ∈ cbs, c.fails k v = false) :
    notify cbs k v = (cbs.map (fun c => Event.mk c.cid k v), false) := by
  induction cbs with
  | nil => rfl
  | cons c rest ih =>
    have hc : c.fails k v = false := h c (List.mem_cons_self c rest)
    simp [notify, hc, ih (fun c' hc' => h c' (List.mem_cons_of_mem c hc'))]

/-- C6: `set(K, V)` stores V under K (first conjunct: the value is in the
store of the returned state, which the callbacks observe), leaves the
subscription table unchanged, and — when no callback raises — invokes
exactly the callbacks registered for K, in registration order, each with
arguments (K, V). The final conjunct specializes this to invocation
counts: a callback identity occurring once among K's subscribers is
invoked exactly once, and one not subscribed to K (e.g. subscribed to
other keys only) is not invoked at all. -/
theorem set_stores_then_notifies {V : Type} (s : SharedStore V) (k : String) (v : V)
    (i : Nat) (h : ∀ c ∈ listenersFor s k, c.fails k v = false) :
    lookupA (s.set k v).1.store k = some v ∧
    (s.set k v).1.listeners = s.listeners ∧
    (s.set k v).2.1 = (listenersFor s k).map (fun c => Event.mk c.cid k v) ∧
    (s.set k v).2.2 = false ∧
    (s.set k v).2.1.countP (fun e => e.cid == i)
      = (listenersFor s k).countP (fun c => c.cid == i) := by
  have hl : listenersFor { s with store := setA s.store k v } k = listenersFor s k := rfl
  have hn := notify_ok (listenersFor s k) k v h
  refine ⟨?_, rfl, ?_, ?_, ?_⟩
  · simp [SharedStore.set, lookupA_setA_self]
  · simp [SharedStore.set, hl, hn]
  · simp [SharedStore.set, hl, hn]
  · simp only [SharedStore.set, hl, hn, List.countP_map]
    exact List.countP_congr (fun c _ => Iff.rfl)

/-- Concrete store for the C6 witness: one subscriber on "a", one on "b",
neither raising. -/
def storeW6 : SharedStore Nat :=
  { store := [],
    listeners := [("a", [⟨1, fun _ _ => false⟩]), ("b", [⟨2, fun _ _ => false⟩])] }

/-- Witness for C6: setting "a" to 5 stores it, notifies callback 1 exactly
once with ("a", 5), and does not invoke callback 2 (subscribed to "b"). -/
theorem set_stores_then_notifies_witness :
    lookupA ((storeW6.set "a" 5).1).store "a" = some 5 ∧
    (storeW6.set "a" 5).1.listeners = storeW6.listeners ∧
    (storeW6.set "a" 5).2.1 = [Event.mk 1 "a" 5] ∧
    (storeW6.set "a" 5).2.2 = false ∧
    (storeW6.set "a" 5).2.1.countP (fun e => e.cid == 2) = 0 := by
  have hfail : ∀ c ∈ listenersFor storeW6 "a", c.fails "a" 5 = false := by
    intro c hc
    simp [listenersFor, storeW6, lookupA] at hc
    subst hc
    rfl
  have h1 := set_stores_then_notifies storeW6 "a" 5 1 hfail
  have h2 := set_stores_then_notifies storeW6 "a" 5 2 hfail
  exact ⟨h1.1, h1.2.1, h1.2.2.1, h1.2.2.2.1, h2.2.2.2.2⟩

/-- Whether notifying the subscribers of `k` (under listener table `L`)
with value `v` raises. -/
def notifyFails {V : Type} (L : List (String × List (Callback V)))
    (k : String) (v : V) : Bool :=
  (notify ((lookupA L k).getD []) k v).2

/-- How many entries of an update batch get processed before the iteration
stops: all of them, or — when some entry's notification raises — the
entries up to and including the raising one. -/
def processedCount {V : Type} (L : List (String × List (Callback V))) :
    List (String × V) → Nat
  | [] => 0
  | (k, v) :: rest =>
    if notifyFails L k v then 1 else processedCount L rest + 1

/-- Whether an exception escapes from processing an update batch. -/
def updateFailed {V : Type} (L : List (String × List (Callback V))) :
    List (String × V) → Bool
  | [] => false
  | (k, v) :: rest => notifyFails L k v || updateFailed L rest

/-- The concatenated notification traces of an update batch, cut off after
the entry whose notification raises. -/
def updateTrace {V : Type} (L : List (String × List (Callback V))) :
    List (String × V) → List (Event V)
  | [] => []
  | (k, v) :: rest =>
    let r := notify ((lookupA L k).getD []) k v
    if r.2 then r.1 else r.1 ++ updateTrace L rest

/-- C9: `update` is `set` applied per entry, with no atomicity. The final
store is the fold of the plain writes over exactly the processed prefix of
the batch — so when a subscriber raises partway through (the error flag,
which propagates to `update`'s caller, is true), every entry before the
fault, and the write of the faulting entry itself, remain committed and
the rest of the batch is untouched. The notification trace is the
concatenation of the per-entry `set` traces up to the fault, and the
subscription table is never changed. -/
theorem update_not_atomic {V : Type} (s : SharedStore V) (l : List (String × V)) :
    s.update l =
      ({ store := List.foldl (fun st kv => setA st kv.1 kv.2) s.store
           (l.take (processedCount s.listeners l)),
         listeners := s.listeners },
       updateTrace s.listeners l, updateFailed s.listeners l) := by
  induction l generalizing s with
  | nil => rfl
  | cons hd rest ih =>
    obtain ⟨k, v⟩ := hd
    have hset : s.set k v
        = ({ s with store := setA s.store k v },
           notify ((lookupA s.listeners k).getD []) k v) := rfl
    by_cases hf : notifyFails s.listeners k v
    · simp [SharedStore.update, hset, processedCount, updateTrace, updateFailed,
        notifyFails, hf] at hf ⊢
      simp [hf]
    · have hf' : (notify ((lookupA s.listeners k).getD []) k v).2 = false := by
        simpa [notifyFails] using hf
      simp [SharedStore.update, hset, processedCount, updateTrace, updateFailed,
        notifyFails, hf', ih]

/-! ## Flow (`sage/core/base.py`)

A node's composed `run` (prepare, compute, finalize) is opaque to the
engine: the embedding keeps it as a transformer of the shared state
returning the declared action (`None` or a string). `isAsync` records the
`isinstance(node, AsyncNode)` test of `run_async`; for an async node,
`runAsyncF` is its (equally opaque) `run_async`. -/

/-- One node of the graph: its name, branching table (`next_nodes`, whose
entries may map to the terminal marker), default edge, and run behavior. -/
structure NodeDef (σ : Type) where
  name : String
  next_nodes : List (String × Option Nat)
  default_next : Option Nat
  runF : σ → σ × Option String
  isAsync : Bool
  runAsyncF : σ → σ × Option String

/-- A node graph, nodes referenced by identifier. -/
def Graph (σ : Type) : Type :=
  Nat → NodeDef σ

/-- The dispatch step of `Flow.run` (and `run_async`): if the action is
truthy — a non-empty string — and a key of the branching table, move to
the table's entry (which may itself be the terminal marker); else to the
default edge when the node has one; else terminate. -/
def nextNode {σ : Type} (nd : NodeDef σ) (action : Option String) : Option Nat :=
  match action with
  | some a =>
    if a ≠ "" then
      match lookupA nd.next_nodes a with
      | some target => target
      | none => nd.default_next
    else nd.default_next
  | none => nd.default_next

/-- The mutable state of a `Flow` during and after `run`, plus the local
step counter. -/
structure FlowState (σ : Type) where
  current : Option Nat
  shared : σ
  history : List String
  steps : Nat
  deriving DecidableEq

/-- The loop `while self.current_node and steps < max_steps` of
`Flow.run`, as a recursion on the remaining step budget: append the
current node's name to the history, run the node, dispatch on its action,
increment the counter. -/
def flowRunAux {σ : Type} (g : Graph σ) :
    Nat → Option Nat → σ → List String → Nat → FlowState σ
  | 0, cur, sh, hist, steps => ⟨cur, sh, hist, steps⟩
  | fuel + 1, cur, sh, hist, steps =>
    match cur with
    | none => ⟨none, sh, hist, steps⟩
    | some id =>
      let nd := g id
      let r := nd.runF sh
      flowRunAux g fuel (nextNode nd r.2) r.1 (hist ++ [nd.name]) (steps + 1)

/-- `Flow.run`: reset the current node to the start node, run the bounded
loop (appending to the prior history), and report whether the step-bound
warning was printed (`steps >= max_steps` after the loop). -/
def Flow.run {σ : Type} (g : Graph σ) (start : Nat) (sh : σ) (hist : List String)
    (max_steps : Nat) : FlowState σ × Bool :=
  let r := flowRunAux g max_steps (some start) sh hist 0
  (r, decide (max_steps ≤ r.steps))

/-- The loop of `Flow.run_async`: identical to the synchronous one except
that an `AsyncNode` is run through `run_async` (awaited). -/
def flowRunAsyncAux {σ : Type} (g : Graph σ) :
    Nat → Option Nat → σ → List String → Nat → FlowState σ
  | 0, cur, sh, hist, steps => ⟨cur, sh, hist, steps⟩
  | fuel + 1, cur, sh, hist, steps =>
    match cur with
    | none => ⟨none, sh, hist, steps⟩
    | some id =>
      let nd := g id
      let r := if nd.isAsync then nd.runAsyncF sh else nd.runF sh
      flowRunAsyncAux g fuel (nextNode nd r.2) r.1 (hist ++ [nd.name]) (steps + 1)

/-- `Flow.run_async` (which reports no step-bound warning). -/
def Flow.run_async {σ : Type} (g : Graph σ) (start : Nat) (sh : σ)
    (hist : List String) (max_steps : Nat) : FlowState σ :=
  flowRunAsyncAux g max_steps (some start) sh hist 0

/-- C4: one loop step runs the current node, appends its name, and moves to
the node computed by `nextNode`; and `nextNode` realizes the claim's case
analysis — a non-empty action found in the branching table selects the
table's entry (possibly the terminal marker), an action absent from the
table falls back to the default edge, a none action likewise; in
particular a node wired with table `x ↦ B` and no default moves to B on
action "x" and terminates the flow on any other action. -/
theorem flow_dispatch {σ : Type} (g : Graph σ) (id : Nat) (sh : σ)
    (hist : List String) (steps fuel : Nat) (nd : NodeDef σ) (bId : Nat)
    (a : String) (t : Option Nat) (act : Option String) :
    flowRunAux g (fuel + 1) (some id) sh hist steps
      = flowRunAux g fuel (nextNode (g id) ((g id).runF sh).2) ((g id).runF sh).1
          (hist ++ [(g id).name]) (steps + 1) ∧
    (a ≠ "" → lookupA nd.next_nodes a = some t → nextNode nd (some a) = t) ∧
    (lookupA nd.next_nodes a = none → nextNode nd (some a) = nd.default_next) ∧
    nextNode nd none = nd.default_next ∧
    nextNode nd (some "") = nd.default_next ∧
    (nd.next_nodes = [("x", some bId)] → nd.default_next = none →
      nextNode nd (some "x") = some bId ∧
        (act ≠ some "x" → nextNode nd act = none)) := by
  refine ⟨rfl, ?_, ?_, rfl, by simp [nextNode], ?_⟩
  · intro ha hl
    simp [nextNode, ha, hl]
  · intro hl
    by_cases ha : a = ""
    · simp [nextNode, ha]
    · simp [nextNode, ha, hl]
  · intro hw hd
    constructor
    · simp [nextNode, hw, lookupA]
    · intro hne
      match act with
      | none => simp [nextNode, hd]
      | some a' =>
        have ha' : a' ≠ "x" := fun hh => hne (by rw [hh])
        have hxa : ¬ ("x" = a') := fun hh => ha' hh.symm
        by_cases ha0 : a' = ""
        · simp [nextNode, ha0, hd]
        · simp [nextNode, ha0, hw, lookupA, hxa, hd]

/-- Concrete node for the C4 witness: branching table `x ↦ node 7`, no
default edge, `run` declaring action "x". -/
def nodeW4 : NodeDef Nat :=
  { name := "A", next_nodes := [("x", some 7)], default_next := none,
    runF := fun s => (s + 1, some "x"), isAsync := false,
    runAsyncF := fun s => (s + 1, some "x") }

/-- Graph for the C4 witness. -/
def graphW4 : Graph Nat :=
  fun _ => nodeW4

/-- Witness for C4: a step from node 0 dispatches through `nextNode`,
action "x" selects node 7, while action "y" or no action terminates. -/
theorem flow_dispatch_witness :
    flowRunAux graphW4 1 (some 0) 0 [] 0 = flowRunAux graphW4 0 (some 7) 1 ["A"] 1 ∧
    nextNode nodeW4 (some "x") = some 7 ∧
    nextNode nodeW4 (some "y") = none ∧
    nextNode nodeW4 none = none ∧
    nextNode nodeW4 (some "") = none := by
  have h := flow_dispatch graphW4 0 (0 : Nat) [] 0 0 nodeW4 7 "x" (some 7) (some "y")
  exact ⟨h.1, (h.2.2.2.2.2 rfl rfl).1, (h.2.2.2.2.2 rfl rfl).2 (by decide),
    h.2.2.2.1, h.2.2.2.2.1⟩

theorem nextNode_no_branch {σ : Type} (nd : NodeDef σ) (h : nd.next_nodes = [])
    (act : Option String) : nextNode nd act = nd.default_next := by
  match act with
  | none => rfl
  | some a =>
    by_cases ha : a = "" <;> simp [nextNode, ha, h, lookupA]

theorem flowRunAux_self_loop {σ : Type} (g : Graph σ) (id : Nat)
    (hbr : (g id).next_nodes = []) (hd : (g id).default_next = some id) :
    ∀ (fuel : Nat) (sh : σ) (hist : List String) (steps : Nat),
    (flowRunAux g fuel (some id) sh hist steps).current = some id ∧
    (flowRunAux g fuel (some id) sh hist steps).history
      = hist ++ List.replicate fuel (g id).name ∧
    (flowRunAux g fuel (some id) sh hist steps).steps = steps + fuel := by
  intro fuel
  induction fuel with
  | zero =>
    intro sh hist steps
    simp [flowRunAux]
  | succ n ih =>
    intro sh hist steps
    have hnx : nextNode (g id) ((g id).runF sh).2 = some id := by
      rw [nextNode_no_branch _ hbr, hd]
    have hstep : flowRunAux g (n + 1) (some id) sh hist steps
        = flowRunAux g n (nextNode (g id) ((g id).runF sh).2) ((g id).runF sh).1
            (hist ++ [(g id).name]) (steps + 1) := rfl
    rw [hstep, hnx]
    obtain ⟨h1, h2, h3⟩ := ih ((g id).runF sh).1 (hist ++ [(g id).name]) (steps + 1)
    refine ⟨h1, ?_, ?_⟩
    · rw [h2]
      simp [List.replicate_succ]
    · rw [h3]
      omega

/-- C5: a flow whose start node is its own default successor (and whose
branching table is empty, so no action ever resolves elsewhere) runs for
exactly the step bound N: the history gains exactly N copies of the node's
name, the loop exits normally with the node still current, and the
step-bound warning is reported — `run` returns rather than raising. -/
theorem self_loop_hits_bound {σ : Type} (g : Graph σ) (id : Nat) (sh : σ) (N : Nat)
    (hbr : (g id).next_nodes = []) (hd : (g id).default_next = some id) :
    (Flow.run g id sh [] N).1.history = List.replicate N (g id).name ∧
    (Flow.run g id sh [] N).1.steps = N ∧
    (Flow.run g id sh [] N).1.current = some id ∧
    (Flow.run g id sh [] N).2 = true := by
  obtain ⟨h1, h2, h3⟩ := flowRunAux_self_loop g id hbr hd N sh [] 0
  have hr : (Flow.run g id sh [] N).1 = flowRunAux g N (some id) sh [] 0 := rfl
  have hw : (Flow.run g id sh [] N).2
      = decide (N ≤ (flowRunAux g N (some id) sh [] 0).steps) := rfl
  refine ⟨?_, ?_, ?_, ?_⟩
  · rw [hr, h2]
    simp
  · rw [hr, h3]
    omega
  · rw [hr]
    exact h1
  · rw [hw, h3]
    simp

/-- Graph for the C5 witness: a single node whose default edge points back
to itself. -/
def graphW5 : Graph Nat :=
  fun _ =>
    { name := "loop", next_nodes := [], default_next := some 0,
      runF := fun s => (s + 1, some "go"), isAsync := false,
      runAsyncF := fun s => (s + 1, some "go") }

/-- Witness for C5 at bound 3: three history entries, three steps, warning
reported. -/
theorem self_loop_hits_bound_witness :
    (Flow.run graphW5 0 0 [] 3).1.history = ["loop", "loop", "loop"] ∧
    (Flow.run graphW5 0 0 [] 3).1.steps = 3 ∧
    (Flow.run graphW5 0 0 [] 3).1.current = some 0 ∧
    (Flow.run graphW5 0 0 [] 3).2 = true :=
  self_loop_hits_bound graphW5 0 0 3 rfl rfl

/-- C10: on a graph of synchronous nodes the asynchronous loop is the same
function as the synchronous one — step for step, and for whole runs: same
final current node, same final shared state, same history, same step
count (the synchronous `run` additionally reports the step-bound
warning). -/
theorem run_async_refines_run {σ : Type} (g : Graph σ)
    (h : ∀ i, (g i).isAsync = false) :
    (∀ (fuel : Nat) (cur : Option Nat) (sh : σ) (hist : List String) (steps : Nat),
      flowRunAsyncAux g fuel cur sh hist steps = flowRunAux g fuel cur sh hist steps) ∧
    ∀ (start : Nat) (sh : σ) (hist : List String) (N : Nat),
      Flow.run_async g start sh hist N = (Flow.run g start sh hist N).1 := by
  have haux : ∀ (fuel : Nat) (cur : Option Nat) (sh : σ) (hist : List String)
      (steps : Nat),
      flowRunAsyncAux g fuel cur sh hist steps = flowRunAux g fuel cur sh hist steps := by
    intro fuel
    induction fuel with
    | zero =>
      intro cur sh hist steps
      rfl
    | succ n ih =>
      intro cur sh hist steps
      match cur with
      | none => rfl
      | some id =>
        have hrun : (if (g id).isAsync then (g id).runAsyncF sh else (g id).runF sh)
            = (g id).runF sh := by
          rw [h id]
          simp
        have e1 : flowRunAsyncAux g (n + 1) (some id) sh hist steps
            = flowRunAsyncAux g n
                (nextNode (g id)
                  ((if (g id).isAsync then (g id).runAsyncF sh else (g id).runF sh)).2)
                ((if (g id).isAsync then (g id).runAsyncF sh else (g id).runF sh)).1
                (hist ++ [(g id).name]) (steps + 1) := rfl
        rw [e1, hrun, ih]
        rfl
  exact ⟨haux, fun start sh hist N => haux N (some start) sh hist 0⟩

/-- Graph for the C10 witness: two synchronous nodes, A branching to B on
"go", B terminal. -/
def graphW10 : Graph Nat :=
  fun i =>
    if i = 0 then
      { name := "A", next_nodes := [("go", some 1)], default_next := none,
        runF := fun s => (s + 1, some "go"), isAsync := false,
        runAsyncF := fun s => (s, none) }
    else
      { name := "B", next_nodes := [], default_next := none,
        runF := fun s => (s * 2, none), isAsync := false,
        runAsyncF := fun s => (s, none) }

/-- Witness for C10: a five-step budget run of the synchronous graph gives
the same final state through both entry points. -/
theorem run_async_refines_run_witness :
    Flow.run_async graphW10 0 1 [] 5 = (Flow.run graphW10 0 1 [] 5).1 :=
  (run_async_refines_run graphW10
    (fun i => by by_cases hi : i = 0 <;> simp [graphW10, hi])).2 0 1 [] 5

end Sage
